import Mathlib

/-!
# caddyfolderlimit: folder-size calculators, the size-limit gate, the size query

A shallow embedding of `main.go` (package `caddyfolderlimit`) and `foldersize.go`
(package `foldersize`), together with the parts of the Go standard library the two
files call: `path/filepath.Walk`, `strconv.ParseInt`, `strings.ToLower`,
`strings.HasSuffix`, `strings.TrimSuffix`, `net/url.Values.Get`, the calls made on
an `http.ResponseWriter` and what `http.Error` and `encoding/json` write for them.

Conventions.
* Go's `int64` is `Int` with every arithmetic result reduced by `Go.int64`
  (two's complement, modulo `2^64`); `uint64` is `Nat` reduced modulo `2^64`.
* A Go closure that mutates a captured variable becomes a function that takes and
  returns that variable.
* A Go `string` is a `GoString`, a sequence of bytes: paths, messages, header and JSON
  text. The size expression handed to `parseSize` is a `List Char`, the runes of a
  valid UTF-8 string.
-/

namespace Go

/-- A Go `string`: a sequence of bytes, which need not be valid UTF-8. -/
structure GoString where
  bytes : List UInt8
  deriving DecidableEq, Repr

/-- The Go string with the UTF-8 encoding of a text; string literals of the source are
read through it. -/
def GoString.ofString (s : String) : GoString := ⟨s.data.flatMap String.utf8EncodeChar⟩

instance : Coe String GoString := ⟨GoString.ofString⟩

/-- Concatenation of Go strings, `s + t`. -/
def GoString.append (s t : GoString) : GoString := ⟨s.bytes ++ t.bytes⟩

/-- Reduction of an integer into the range of Go's `int64`: the value a two's-complement
64-bit register holds after the operation. -/
def int64 (x : Int) : Int := (x + 2 ^ 63) % 2 ^ 64 - 2 ^ 63

/-- The values representable in an `int64`. -/
def fitsInt64 (x : Int) : Prop := -(2 ^ 63) ≤ x ∧ x < 2 ^ 63

instance (x : Int) : Decidable (fitsInt64 x) := by unfold fitsInt64; infer_instance

/-- Go `error` values: the two sentinels that `filepath.Walk` interprets, and any
other error (for instance the `*fs.PathError` of a failed system call), carried with
its message. -/
inductive GoError where
  | SkipDir
  | SkipAll
  | Other (msg : GoString)
  deriving DecidableEq, Repr

/-- The method `Error()` of an `error`. -/
def GoError.Error : GoError → GoString
  | .SkipDir => "skip this directory"
  | .SkipAll => "skip everything and stop the walk"
  | .Other msg => msg

/-- The part of `os.FileInfo` the callbacks read. -/
structure FileInfo where
  IsDir : Bool
  Size : Int
  deriving DecidableEq, Repr

/-- What is found at a path, as `os.Lstat` and a directory listing report it.
The children of a directory are in the order `filepath.Walk` processes them
(sorted by name). -/
inductive Entry where
  /-- The call `os.Lstat` fails (the path does not exist, permission denied ...). -/
  | lstatFails (msg : GoString)
  /-- Any entry that is not a directory: regular file, symbolic link, device ... -/
  | file (size : Int)
  /-- A directory whose listing cannot be read. -/
  | dirUnreadable (size : Int) (msg : GoString)
  /-- A directory, with its own size metadata and its entries. -/
  | dir (size : Int) (children : List Entry)
  deriving Repr

/-- The file system as the program sees it: what is found at each root path. -/
abbrev FileSystem := GoString → Entry

/-- The arguments `filepath.Walk` hands to its callback, without the path (both
callbacks of the repository discard it). `ok info` is a call with `err == nil`;
`failed info err` is a call with `err != nil`, where `info` is nil when `os.Lstat`
failed and describes the directory when reading the directory failed. -/
inductive Visit where
  | ok (info : FileInfo)
  | failed (info : Option FileInfo) (err : GoError)
  deriving DecidableEq, Repr

/-- Whether a visit is one without error. -/
def Visit.isOk : Visit → Bool
  | .ok _ => true
  | .failed _ _ => false

/-- The type `filepath.WalkFunc`, with the captured variables of the closure as
state `σ`. -/
abbrev WalkFunc (σ : Type) := Visit → σ → σ × Option GoError

/-- Whether `os.Lstat` succeeds on the entry and reports a directory. -/
def Entry.isDir : Entry → Bool
  | .dir _ _ => true
  | .dirUnreadable _ _ => true
  | _ => false

/-- Whether `os.Lstat` fails on the entry. -/
def Entry.lstatFailed : Entry → Bool
  | .lstatFails _ => true
  | _ => false

namespace filepath

mutual
/-- The step `os.Lstat` followed by the unexported `filepath.walk`: on an Lstat failure
the callback is called with the error; a non-directory is handed to the callback; for
a directory the names are read, the callback is called (with the read error, if any),
and the walk descends only when both the read and the callback succeeded. -/
def walk {σ : Type} (walkFn : WalkFunc σ) : Entry → σ → σ × Option GoError
  | .lstatFails msg, s => walkFn (.failed none (.Other msg)) s
  | .file size, s => walkFn (.ok ⟨false, size⟩) s
  | .dirUnreadable size msg, s => walkFn (.failed (some ⟨true, size⟩) (.Other msg)) s
  | .dir size children, s =>
    match walkFn (.ok ⟨true, size⟩) s with
    | (s1, some err1) => (s1, some err1)
    | (s1, none) => walkNames walkFn children s1
/-- The loop of `filepath.walk` over the names of a directory: an error stops the
loop, except `SkipDir` coming from a directory or from a failed Lstat. -/
def walkNames {σ : Type} (walkFn : WalkFunc σ) : List Entry → σ → σ × Option GoError
  | [], s => (s, none)
  | c :: rest, s =>
    match walk walkFn c s with
    | (s1, none) => walkNames walkFn rest s1
    | (s1, some err) =>
      if err = .SkipDir ∧ (c.lstatFailed ∨ c.isDir) then walkNames walkFn rest s1
      else (s1, some err)
end

/-- The function `filepath.Walk`: the walk of the root, with `SkipDir` and `SkipAll`
turned into success. -/
def Walk {σ : Type} (root : Entry) (walkFn : WalkFunc σ) (s : σ) : σ × Option GoError :=
  match walk walkFn root s with
  | (s1, some err) => if err = .SkipDir ∨ err = .SkipAll then (s1, none) else (s1, some err)
  | (s1, none) => (s1, none)

end filepath

mutual
/-- Every callback invocation the walk of an entry makes when the callback never
stops it, in order. -/
def Entry.visits : Entry → List Visit
  | .lstatFails msg => [.failed none (.Other msg)]
  | .file size => [.ok ⟨false, size⟩]
  | .dirUnreadable size msg => [.failed (some ⟨true, size⟩) (.Other msg)]
  | .dir size children => .ok ⟨true, size⟩ :: Entry.visitsAll children
/-- The visits of a list of sibling entries, in order. -/
def Entry.visitsAll : List Entry → List Visit
  | [] => []
  | c :: rest => c.visits ++ Entry.visitsAll rest
end

mutual
/-- A tree in which every entry can be read: no Lstat fails and every directory can
be listed. -/
def Entry.readable : Entry → Bool
  | .lstatFails _ => false
  | .file _ => true
  | .dirUnreadable _ _ => false
  | .dir _ children => Entry.readableAll children
/-- Readability of a list of sibling entries. -/
def Entry.readableAll : List Entry → Bool
  | [] => true
  | c :: rest => c.readable && Entry.readableAll rest
end

mutual
/-- The sum of the sizes of all non-directory entries of a tree, at every depth. -/
def Entry.fileBytes : Entry → Int
  | .lstatFails _ => 0
  | .file size => size
  | .dirUnreadable _ _ => 0
  | .dir _ children => Entry.fileBytesAll children
/-- The summed file sizes of a list of sibling trees. -/
def Entry.fileBytesAll : List Entry → Int
  | [] => 0
  | c :: rest => c.fileBytes + Entry.fileBytesAll rest
end

mutual
/-- The sum of the own sizes of all directory entries of a tree, the root included. -/
def Entry.dirBytes : Entry → Int
  | .lstatFails _ => 0
  | .file _ => 0
  | .dirUnreadable size _ => size
  | .dir size children => size + Entry.dirBytesAll children
/-- The summed directory sizes of a list of sibling trees. -/
def Entry.dirBytesAll : List Entry → Int
  | [] => 0
  | c :: rest => c.dirBytes + Entry.dirBytesAll rest
end

/-- A callback wrapped so that it also records every visit it receives. -/
def traced {σ : Type} (walkFn : WalkFunc σ) : WalkFunc (σ × List Visit) :=
  fun v st =>
    match walkFn v st.1 with
    | (s1, err) => ((s1, st.2 ++ [v]), err)

/-- Sequential application of a callback to a list of visits, stopping at the first
visit for which it returns an error. -/
def runVisits {σ : Type} (walkFn : WalkFunc σ) : List Visit → σ → σ × Option GoError
  | [], s => (s, none)
  | v :: vs, s =>
    match walkFn v s with
    | (s1, none) => runVisits walkFn vs s1
    | (s1, some err) => (s1, some err)

/-- The contribution of a visit to the running total of the query calculator. -/
def Visit.fileSize : Visit → Int
  | .ok info => if info.IsDir then 0 else info.Size
  | .failed _ _ => 0

/-- The contribution of a visit to the running total of the gate calculator. -/
def Visit.size : Visit → Int
  | .ok info => info.Size
  | .failed _ _ => 0

/-- A callback that lets every visit without error pass and returns the error of
every failed visit. -/
def StopsAtFailure {σ : Type} (walkFn : WalkFunc σ) : Prop :=
  (∀ info s, (walkFn (.ok info) s).2 = none) ∧
  (∀ info err s, (walkFn (.failed info err) s).2 = some err)

/-- A callback that keeps a running `int64` total: a failed visit returns its error
and leaves the total alone, a visit without error adds `contrib` to the total. -/
def Accumulates (walkFn : WalkFunc Int) (contrib : Visit → Int) : Prop :=
  (∀ info err s, walkFn (.failed info err) s = (s, some err)) ∧
  (∀ info s, int64 s = s → walkFn (.ok info) s = (int64 (s + contrib (.ok info)), none))

/-! ### `strings` -/

namespace strings

/-- The function `strings.ToLower` on a valid UTF-8 string: every rune is mapped by
`unicode.ToLower`, which is a parameter. -/
def ToLower (unicodeToLower : Char → Char) (s : List Char) : List Char :=
  s.map unicodeToLower

/-- The function `strings.HasSuffix`. -/
def HasSuffix (s suffix : List Char) : Bool :=
  decide (s.length ≥ suffix.length) && decide (s.drop (s.length - suffix.length) = suffix)

/-- The function `strings.TrimSuffix`. -/
def TrimSuffix (s suffix : List Char) : List Char :=
  if HasSuffix s suffix then s.take (s.length - suffix.length) else s

end strings

/-! ### `strconv` -/

namespace strconv

/-- The two causes `strconv` reports for a failed conversion. -/
inductive ErrKind where
  | ErrSyntax
  | ErrRange
  deriving DecidableEq, Repr

/-- The type `strconv.NumError`. -/
structure NumError where
  Func : String
  Num : List Char
  Err : ErrKind
  deriving DecidableEq, Repr

/-- The byte test of `ParseUint` for a decimal digit, `'0' <= c && c <= '9'`. -/
def isDecimalDigit (c : Char) : Bool := decide (48 ≤ c.toNat ∧ c.toNat ≤ 57)

/-- The constant `maxUint64`. -/
def maxUint64 : Nat := 2 ^ 64 - 1

/-- The loop of `strconv.ParseUint` for base 10 and bit size 64, over the remaining
bytes, with the accumulator `n`. In base 10 every byte that is not a decimal digit
ends in a syntax error: a letter is a digit of value at least 10, any other byte
(every byte of a rune outside ASCII among them) falls to the default case. -/
def ParseUint.loop (s0 : List Char) : List Char → Nat → Nat × Option NumError
  | [], n => (n, none)
  | c :: cs, n =>
    if isDecimalDigit c then
      let d := c.toNat - 48
      if n ≥ maxUint64 / 10 + 1 then
        (maxUint64, some ⟨"ParseUint", s0, .ErrRange⟩)
      else
        let n := n * 10 % 2 ^ 64
        let n1 := (n + d) % 2 ^ 64
        if n1 < n ∨ n1 > maxUint64 then
          (maxUint64, some ⟨"ParseUint", s0, .ErrRange⟩)
        else ParseUint.loop s0 cs n1
    else (0, some ⟨"ParseUint", s0, .ErrSyntax⟩)

/-- The function `strconv.ParseUint(s, 10, 64)`. -/
def ParseUint (s : List Char) : Nat × Option NumError :=
  if s = [] then (0, some ⟨"ParseUint", s, .ErrSyntax⟩)
  else ParseUint.loop s s 0

/-- The tail of `strconv.ParseInt` after `ParseUint` returned: the range check against
`cutoff = 1 << 63`, the conversion `int64(un)` and the negation. -/
def ParseInt.checkRange (s0 : List Char) (neg : Bool) (un : Nat) : Int × Option NumError :=
  let cutoff : Nat := 2 ^ 63
  if !neg ∧ un ≥ cutoff then ((cutoff : Int) - 1, some ⟨"ParseInt", s0, .ErrRange⟩)
  else if neg ∧ un > cutoff then (-(cutoff : Int), some ⟨"ParseInt", s0, .ErrRange⟩)
  else
    let n := int64 un
    if neg then (int64 (-n), none) else (n, none)

/-- The function `strconv.ParseInt(s, 10, 64)`: the leading sign is picked off, the
rest goes through `ParseUint`, an error other than a range error is returned with the
value 0, and the range check follows. -/
def ParseInt (s : List Char) : Int × Option NumError :=
  match s with
  | [] => (0, some ⟨"ParseInt", s, .ErrSyntax⟩)
  | c :: rest =>
    let neg := decide (c = '-')
    let digits := if c = '+' ∨ c = '-' then rest else s
    match ParseUint digits with
    | (un, some err) =>
      if err.Err ≠ .ErrRange then (0, some { err with Func := "ParseInt", Num := s })
      else ParseInt.checkRange s neg un
    | (un, none) => ParseInt.checkRange s neg un

/-- The digits of a literal after its optional sign, and whether the sign is a minus. -/
def splitSign : List Char → Bool × List Char
  | [] => (false, [])
  | c :: rest =>
    if c = '-' then (true, rest) else if c = '+' then (false, rest) else (false, c :: rest)

/-- The number a string of decimal digits denotes, continuing from `acc`. -/
def digitsValue (acc : Nat) (ds : List Char) : Nat :=
  ds.foldl (fun a c => a * 10 + (c.toNat - 48)) acc

/-- An optionally signed decimal integer literal: an optional `+` or `-` followed by
one or more of the digits `0` to `9`. -/
def isDecimalLiteral (s : List Char) : Bool :=
  !(splitSign s).2.isEmpty && (splitSign s).2.all isDecimalDigit

/-- The integer an optionally signed decimal literal denotes. -/
def literalValue (s : List Char) : Int :=
  if (splitSign s).1 then -(digitsValue 0 (splitSign s).2 : Int)
  else (digitsValue 0 (splitSign s).2 : Int)

end strconv

/-! ### `unicode/utf8` -/

namespace utf8

/-- For the first byte of a multi-byte encoding: the size of the encoding and the
lowest and highest value accepted for its second byte, as the tables `first` and
`acceptRanges` of `unicode/utf8` give them; nothing for an ASCII byte and for a byte
that cannot start an encoding. -/
def leadByte (b0 : Nat) : Option (Nat × Nat × Nat) :=
  if 0xC2 ≤ b0 ∧ b0 ≤ 0xDF then some (2, 0x80, 0xBF)
  else if b0 = 0xE0 then some (3, 0xA0, 0xBF)
  else if b0 = 0xED then some (3, 0x80, 0x9F)
  else if 0xE1 ≤ b0 ∧ b0 ≤ 0xEF then some (3, 0x80, 0xBF)
  else if b0 = 0xF0 then some (4, 0x90, 0xBF)
  else if 0xF1 ≤ b0 ∧ b0 ≤ 0xF3 then some (4, 0x80, 0xBF)
  else if b0 = 0xF4 then some (4, 0x80, 0x8F)
  else none

/-- A continuation byte, between `locb` and `hicb`. -/
def isContinuation (b : UInt8) : Bool := decide (0x80 ≤ b.toNat ∧ b.toNat ≤ 0xBF)

/-- The size `utf8.DecodeRuneInString` reports for the rune at the head of a byte
sequence when the head is a valid encoding; nothing when it reports
`(RuneError, 1)`, and for the empty sequence. -/
def runeLen : List UInt8 → Option Nat
  | [] => none
  | b0 :: rest =>
    if b0.toNat < 0x80 then some 1
    else
      match leadByte b0.toNat, rest with
      | none, _ => none
      | some _, [] => none
      | some (size, lo, hi), b1 :: more =>
        if more.length + 2 < size then none
        else if b1.toNat < lo ∨ hi < b1.toNat then none
        else if (more.take (size - 2)).all isContinuation then some size
        else none

/-- The scan of `utf8.ValidString` over the remaining bytes; `pending` is the number
of bytes of the current rune still to pass. -/
def validFrom : Nat → List UInt8 → Bool
  | _, [] => true
  | pending + 1, _ :: rest => validFrom pending rest
  | 0, b :: rest =>
    match runeLen (b :: rest) with
    | some n => validFrom (n - 1) rest
    | none => false

/-- The function `utf8.ValidString`. -/
def ValidString (s : GoString) : Bool := validFrom 0 s.bytes

end utf8

/-! ### `net/http`, `net/url`, `encoding/json` -/

namespace http

/-- A JSON value as `encoding/json` writes the two kinds of field the handler encodes. -/
inductive JSONValue where
  | str (s : GoString)
  | num (n : Int)
  deriving DecidableEq, Repr

/-- The encoding of U+FFFD in UTF-8. -/
def replacementChar : List UInt8 := [0xEF, 0xBF, 0xBD]

/-- The bytes of the string that `encoding/json` writes for a Go string, from the
remaining bytes: a valid rune is kept, a byte for which `DecodeRuneInString` reports
`(RuneError, 1)` is replaced by U+FFFD; `pending` is the number of bytes of the current
rune still to copy. (The escapes the encoder writes denote the same string.) -/
def coerceFrom : Nat → List UInt8 → List UInt8
  | _, [] => []
  | pending + 1, b :: rest => b :: coerceFrom pending rest
  | 0, b :: rest =>
    match utf8.runeLen (b :: rest) with
    | some n => b :: coerceFrom (n - 1) rest
    | none => replacementChar ++ coerceFrom 0 rest

/-- The string a JSON reader gets back for a Go string written by `encoding/json`:
the Go string coerced to valid UTF-8. -/
def jsonString (s : GoString) : GoString := ⟨coerceFrom 0 s.bytes⟩

/-- The JSON value written for a Go value. -/
def JSONValue.written : JSONValue → JSONValue
  | .str s => .str (jsonString s)
  | .num n => .num n

/-- A call made on an `http.ResponseWriter`:
`http.Error(w, error, code)`, which replies with the status `code` and the message
as plain text; `w.Header().Set(key, value)`; and `json.NewEncoder(w).Encode(object)`
for a map, whose keys `encoding/json` writes in sorted order. -/
inductive WriterCall where
  | Error (error : GoString) (code : Nat)
  | HeaderSet (key value : GoString)
  | Encode (object : List (GoString × JSONValue))
  deriving DecidableEq, Repr

/-- An `http.ResponseWriter`, as the calls made on it so far. -/
abbrev ResponseWriter := List WriterCall

/-- The constant `http.StatusOK`. -/
def StatusOK : Nat := 200
/-- The constant `http.StatusBadRequest`. -/
def StatusBadRequest : Nat := 400
/-- The constant `http.StatusForbidden`. -/
def StatusForbidden : Nat := 403
/-- The constant `http.StatusInternalServerError`. -/
def StatusInternalServerError : Nat := 500

/-- The status code a fresh `ResponseWriter` sends: the code of `http.Error`, or 200
when the body is written without a call of `WriteHeader`. -/
def statusCode : ResponseWriter → Option Nat
  | [] => none
  | .Error _ code :: _ => some code
  | .HeaderSet _ _ :: rest => statusCode rest
  | .Encode _ :: _ => some StatusOK

/-- A piece of a response body: bytes written as they are, or the JSON text of an
object followed by a newline, as `Encoder.Encode` writes it. -/
inductive Chunk where
  | raw (bytes : GoString)
  | jsonLine (object : List (GoString × JSONValue))
  deriving DecidableEq, Repr

/-- The body a `ResponseWriter` sends: `http.Error` writes the message with
`fmt.Fprintln`, that is followed by a newline; `Encode` writes the JSON text of the
map, its strings coerced to valid UTF-8, followed by a newline. -/
def body : ResponseWriter → List Chunk
  | [] => []
  | .Error error _ :: rest => .raw (error.append "\n") :: body rest
  | .HeaderSet _ _ :: rest => body rest
  | .Encode object :: rest =>
    .jsonLine (object.map fun kv => (jsonString kv.1, kv.2.written)) :: body rest

/-- The `Content-Type` header a fresh `ResponseWriter` sends, given the value set so
far: `http.Error` sets `text/plain; charset=utf-8`; a body written without
`WriteHeader` goes out with the value set before it (nothing when none was set, and
`net/http` then detects one from the body). -/
def contentTypeFrom (current : Option GoString) : ResponseWriter → Option GoString
  | [] => none
  | .Error _ _ :: _ => some "text/plain; charset=utf-8"
  | .HeaderSet key value :: rest =>
    contentTypeFrom (if key = "Content-Type" then some value else current) rest
  | .Encode _ :: _ => current

/-- The `Content-Type` header a fresh `ResponseWriter` sends. -/
def contentType (w : ResponseWriter) : Option GoString := contentTypeFrom none w

/-- The type `url.Values`, the parsed query of a request. -/
abbrev Values := List (GoString × List GoString)

/-- The method `url.Values.Get`: the first value of the key, and the empty string when
the key has no value. -/
def Values.Get (v : Values) (key : GoString) : GoString :=
  match v.lookup key with
  | some (x :: _) => x
  | _ => ""

/-- The part of `*http.Request` the handlers read: the parsed query `r.URL.Query()`. -/
structure Request where
  Query : Values
  deriving DecidableEq, Repr

/-- The type `caddyhttp.Handler`: the next handler of the chain, which acts on the
writer and returns an error or nil. -/
abbrev Handler := ResponseWriter → Request → ResponseWriter × Option GoError

/-- What a handler did while it served one request. -/
structure Effects where
  /-- The response writer after the handler returned. -/
  w : ResponseWriter
  /-- The root paths on which `getFolderSize` was called, in order. -/
  walks : List GoString
  /-- The requests handed to `next.ServeHTTP`, in order. -/
  forwarded : List Request
  deriving DecidableEq, Repr

end http
end Go

/-! ## The query module, `foldersize.go` -/

namespace foldersize
open Go

/-- The closure passed to `filepath.Walk` in `getFolderSize` of `foldersize.go`; the
state is the captured variable `size`. -/
def getFolderSize.walkFn : WalkFunc Int
  | .failed _ err, size => (size, some err)
  | .ok info, size =>
    if !info.IsDir then (int64 (size + info.Size), none)
    else (size, none)

/-- The function `getFolderSize` of `foldersize.go`: the pair `(size, err)` it returns. -/
def getFolderSize (fs : FileSystem) (path : GoString) : Int × Option GoError :=
  filepath.Walk (fs path) getFolderSize.walkFn 0

/-- The callback invocations `getFolderSize` of `foldersize.go` causes, in order. -/
def getFolderSize.visited (fs : FileSystem) (path : GoString) : List Visit :=
  (filepath.Walk (fs path) (traced getFolderSize.walkFn) (0, [])).1.2

/-- The method `FolderSize.ServeHTTP`, started on the writer `w`. -/
def FolderSize.ServeHTTP (fs : FileSystem) (w : http.ResponseWriter) (r : http.Request) :
    http.Effects × Option GoError :=
  let folder := r.Query.Get "folder"
  if folder = "" then
    (⟨w ++ [.Error "folder parameter is required" http.StatusBadRequest], [], []⟩, none)
  else
    match getFolderSize fs folder with
    | (_, some err) =>
      (⟨w ++ [.Error err.Error http.StatusInternalServerError], [folder], []⟩, none)
    | (size, none) =>
      (⟨w ++ [.HeaderSet "Content-Type" "application/json",
          .Encode [("folder", .str folder), ("size", .num size)]], [folder], []⟩, none)

end foldersize

/-! ## The gate module, `main.go` -/

namespace caddyfolderlimit
open Go

/-- The struct `FolderLimit`. -/
structure FolderLimit where
  FolderPath : GoString
  MaxSize : Int
  deriving DecidableEq, Repr

/-- The closure passed to `filepath.Walk` in `getFolderSize` of `main.go`; the state is
the captured variable `size`. -/
def getFolderSize.walkFn : WalkFunc Int
  | .failed _ err, size => (size, some err)
  | .ok info, size => (int64 (size + info.Size), none)

/-- The function `getFolderSize` of `main.go`: the pair `(size, err)` it returns. -/
def getFolderSize (fs : FileSystem) (path : GoString) : Int × Option GoError :=
  filepath.Walk (fs path) getFolderSize.walkFn 0

/-- The callback invocations `getFolderSize` of `main.go` causes, in order. -/
def getFolderSize.visited (fs : FileSystem) (path : GoString) : List Visit :=
  (filepath.Walk (fs path) (traced getFolderSize.walkFn) (0, [])).1.2

/-- The method `FolderLimit.ServeHTTP`, started on the writer `w`. -/
def FolderLimit.ServeHTTP (fl : FolderLimit) (fs : FileSystem) (w : http.ResponseWriter)
    (r : http.Request) (next : http.Handler) : http.Effects × Option GoError :=
  match getFolderSize fs fl.FolderPath with
  | (_, some err) => (⟨w, [fl.FolderPath], []⟩, some err)
  | (size, none) =>
    if size > fl.MaxSize then
      (⟨w ++ [.Error "Folder size limit exceeded" http.StatusForbidden], [fl.FolderPath], []⟩,
        none)
    else
      match next w r with
      | (w1, err) => (⟨w1, [fl.FolderPath], [r]⟩, err)

/-- The `switch` statement of `parseSize`: the multiplier and the size string with the
suffix trimmed. -/
def parseSize.switch (sizeStr : List Char) : Int × List Char :=
  if strings.HasSuffix sizeStr "kb".toList then
    (1024, strings.TrimSuffix sizeStr "kb".toList)
  else if strings.HasSuffix sizeStr "mb".toList then
    (1024 * 1024, strings.TrimSuffix sizeStr "mb".toList)
  else if strings.HasSuffix sizeStr "gb".toList then
    (1024 * 1024 * 1024, strings.TrimSuffix sizeStr "gb".toList)
  else (1, sizeStr)

/-- The function `parseSize` of `main.go`. The rune mapping `unicode.ToLower` behind
`strings.ToLower` is a parameter. -/
def parseSize (unicodeToLower : Char → Char) (sizeStr : List Char) :
    Int × Option strconv.NumError :=
  match parseSize.switch (strings.ToLower unicodeToLower sizeStr) with
  | (multiplier, sizeStr) =>
    match strconv.ParseInt sizeStr with
    | (_, some err) => (0, some err)
    | (size, none) => (int64 (size * multiplier), none)

/-- The suffixes of the size grammar, in lower case; the empty suffix means bytes. -/
def sizeSuffixes : List (List Char) := [[], "kb".toList, "mb".toList, "gb".toList]

/-- The multiplier the size grammar gives to a lower-case suffix. -/
def suffixMultiplier (suffix : List Char) : Int :=
  if suffix = "kb".toList then 1024
  else if suffix = "mb".toList then 1024 ^ 2
  else if suffix = "gb".toList then 1024 ^ 3
  else 1

/-- A lower-case size string with at most one trailing `kb`, `mb` or `gb` removed. -/
def trimSizeSuffix (s : List Char) : List Char :=
  if s.drop (s.length - 2) ∈ ["kb".toList, "mb".toList, "gb".toList] then
    s.take (s.length - 2)
  else s

/-- The behaviour of `unicode.ToLower` on ASCII: the letters `A` to `Z` go to `a` to
`z`, every other ASCII rune is left alone. -/
def LowersASCII (unicodeToLower : Char → Char) : Prop :=
  ∀ c : Char, c.toNat < 128 → unicodeToLower c = c.toLower

end caddyfolderlimit

/-! ## Example inputs -/

namespace Go

/-- A directory of 4096 bytes that holds two files of `2^62` bytes each (sparse files
reach such lengths). -/
def twoSparseFiles : Entry := .dir 4096 [.file (2 ^ 62), .file (2 ^ 62)]

/-- A directory of 4096 bytes that holds files of `2^62` and `2^62 - 4096` bytes. -/
def almostFullTree : Entry := .dir 4096 [.file (2 ^ 62), .file (2 ^ 62 - 4096)]

/-- A directory of 4096 bytes that holds one file of 9 bytes. -/
def nineBytes : Entry := .dir 4096 [.file 9]

/-- A directory of 4096 bytes that holds one file of 11 bytes. -/
def elevenBytes : Entry := .dir 4096 [.file 11]

/-- A directory of 4096 bytes whose entries are a file of 5 bytes, an entry on which
Lstat fails, and a file of 7 bytes. -/
def partlyUnreadable : Entry := .dir 4096 [.file 5, .lstatFails "permission denied", .file 7]

/-- A next handler that sets one header on the writer and returns nil. -/
def respondingNext : http.Handler := fun w _ => (w ++ [.HeaderSet "X-Next" "called"], none)

/-- A directory with a file of 3 bytes and a subdirectory holding a file of 4 bytes;
each directory has 4096 bytes of its own. -/
def nestedTree : Entry := .dir 4096 [.file 3, .dir 4096 [.file 4]]

end Go

/-! ## Lemmas: the walk -/

namespace Go

theorem runVisits_append {σ : Type} (walkFn : WalkFunc σ) (xs ys : List Visit) (s : σ) :
    runVisits walkFn (xs ++ ys) s =
      match runVisits walkFn xs s with
      | (s1, none) => runVisits walkFn ys s1
      | (s1, some err) => (s1, some err) := by
  induction xs generalizing s with
  | nil => simp [runVisits]
  | cons v vs ih =>
    simp only [List.cons_append, runVisits]
    rcases h : walkFn v s with ⟨s1, _ | e⟩
    · simp [ih]
    · simp

theorem runVisits_error_mem {σ : Type} (walkFn : WalkFunc σ) (h : StopsAtFailure walkFn)
    (vs : List Visit) (s s1 : σ) (e : GoError)
    (hr : runVisits walkFn vs s = (s1, some e)) : ∃ info, Visit.failed info e ∈ vs := by
  induction vs generalizing s with
  | nil => simp [runVisits] at hr
  | cons v vs ih =>
    simp only [runVisits] at hr
    rcases hv : walkFn v s with ⟨s2, _ | e2⟩
    · rw [hv] at hr
      obtain ⟨info, hi⟩ := ih s2 hr
      exact ⟨info, List.mem_cons_of_mem _ hi⟩
    · rw [hv] at hr
      simp only [Prod.mk.injEq, Option.some.injEq] at hr
      cases v with
      | ok info =>
        have := h.1 info s
        rw [hv] at this
        simp at this
      | failed info err =>
        have := h.2 info err s
        rw [hv] at this
        simp only [Option.some.injEq] at this
        refine ⟨info, ?_⟩
        rw [← hr.2, this]
        exact List.mem_cons_self _ _

mutual
theorem visits_failed_pathError : ∀ (t : Entry) (info : Option FileInfo) (e : GoError),
    Visit.failed info e ∈ t.visits → ∃ msg, e = .Other msg
  | .lstatFails msg, info, e, h => by
    simp [Entry.visits] at h
    exact ⟨msg, h.2⟩
  | .file size, info, e, h => by simp [Entry.visits] at h
  | .dirUnreadable size msg, info, e, h => by
    simp [Entry.visits] at h
    exact ⟨msg, h.2⟩
  | .dir size children, info, e, h => by
    simp [Entry.visits] at h
    exact visitsAll_failed_pathError children info e h
theorem visitsAll_failed_pathError : ∀ (ts : List Entry) (info : Option FileInfo) (e : GoError),
    Visit.failed info e ∈ Entry.visitsAll ts → ∃ msg, e = .Other msg
  | [], info, e, h => by simp [Entry.visitsAll] at h
  | c :: rest, info, e, h => by
    simp [Entry.visitsAll] at h
    rcases h with h | h
    · exact visits_failed_pathError c info e h
    · exact visitsAll_failed_pathError rest info e h
end

mutual
theorem walk_eq_runVisits {σ : Type} (walkFn : WalkFunc σ) (h : StopsAtFailure walkFn) :
    ∀ (t : Entry) (s : σ), filepath.walk walkFn t s = runVisits walkFn t.visits s
  | .lstatFails msg, s => by
    have := h.2 none (.Other msg) s
    rcases hv : walkFn (.failed none (.Other msg)) s with ⟨s1, _ | e⟩ <;>
      simp [filepath.walk, Entry.visits, runVisits, hv]
  | .file size, s => by
    rcases hv : walkFn (.ok ⟨false, size⟩) s with ⟨s1, _ | e⟩ <;>
      simp [filepath.walk, Entry.visits, runVisits, hv]
  | .dirUnreadable size msg, s => by
    rcases hv : walkFn (.failed (some ⟨true, size⟩) (.Other msg)) s with ⟨s1, _ | e⟩ <;>
      simp [filepath.walk, Entry.visits, runVisits, hv]
  | .dir size children, s => by
    rcases hv : walkFn (.ok ⟨true, size⟩) s with ⟨s1, _ | e⟩
    · simp [filepath.walk, Entry.visits, runVisits, hv, walkNames_eq_runVisits walkFn h children s1]
    · simp [filepath.walk, Entry.visits, runVisits, hv]
theorem walkNames_eq_runVisits {σ : Type} (walkFn : WalkFunc σ) (h : StopsAtFailure walkFn) :
    ∀ (ts : List Entry) (s : σ),
      filepath.walkNames walkFn ts s = runVisits walkFn (Entry.visitsAll ts) s
  | [], s => by simp [filepath.walkNames, Entry.visitsAll, runVisits]
  | c :: rest, s => by
    rw [filepath.walkNames, Entry.visitsAll, runVisits_append, walk_eq_runVisits walkFn h c s]
    rcases hv : runVisits walkFn c.visits s with ⟨s1, _ | e⟩
    · simp [walkNames_eq_runVisits walkFn h rest s1]
    · obtain ⟨info, hi⟩ := runVisits_error_mem walkFn h _ _ _ _ hv
      obtain ⟨msg, rfl⟩ := visits_failed_pathError c info e hi
      simp
end


theorem int64_add_int64 (a b : Int) : int64 (int64 a + b) = int64 (a + b) := by
  unfold int64; omega

theorem int64_of_fits (x : Int) (h : fitsInt64 x) : int64 x = x := by
  unfold fitsInt64 at h; unfold int64; omega

theorem fits_int64 (x : Int) : fitsInt64 (int64 x) := by
  unfold fitsInt64 int64; omega

theorem int64_eq_iff (a b : Int) : int64 a = int64 b ↔ (2 ^ 64 : Int) ∣ a - b := by
  unfold int64
  constructor
  · intro h; omega
  · intro h; omega

theorem Walk_eq_runVisits {σ : Type} (walkFn : WalkFunc σ) (h : StopsAtFailure walkFn)
    (t : Entry) (s : σ) : filepath.Walk t walkFn s = runVisits walkFn t.visits s := by
  unfold filepath.Walk
  rw [walk_eq_runVisits walkFn h]
  rcases hv : runVisits walkFn t.visits s with ⟨s1, _ | e⟩
  · rfl
  · obtain ⟨info, hi⟩ := runVisits_error_mem walkFn h _ _ _ _ hv
    obtain ⟨msg, rfl⟩ := visits_failed_pathError t info e hi
    simp

theorem runVisits_accumulates_ok (walkFn : WalkFunc Int) (contrib : Visit → Int)
    (h : Accumulates walkFn contrib) (vs : List Visit) (hvs : ∀ v ∈ vs, v.isOk = true)
    (s : Int) (hs : int64 s = s) :
    runVisits walkFn vs s = (int64 (s + (vs.map contrib).sum), none) := by
  induction vs generalizing s with
  | nil => simp [runVisits, hs]
  | cons v vs ih =>
    cases v with
    | failed info err => simpa [Visit.isOk] using hvs _ (List.mem_cons_self _ _)
    | ok info =>
      simp only [runVisits, h.2 info s hs, List.map_cons, List.sum_cons]
      rw [ih (fun v hv => hvs v (List.mem_cons_of_mem _ hv)) _
        (int64_of_fits _ (fits_int64 _)), int64_add_int64, add_assoc]

theorem runVisits_accumulates_fail (walkFn : WalkFunc Int) (contrib : Visit → Int)
    (h : Accumulates walkFn contrib) (pre post : List Visit) (info : Option FileInfo)
    (e : GoError) (hpre : ∀ v ∈ pre, v.isOk = true) :
    runVisits walkFn (pre ++ .failed info e :: post) 0
      = (int64 ((pre.map contrib).sum), some e) := by
  rw [runVisits_append, runVisits_accumulates_ok walkFn contrib h pre hpre 0 (by decide)]
  simp [runVisits, h.1]

theorem traced_stops {σ : Type} (walkFn : WalkFunc σ) (h : StopsAtFailure walkFn) :
    StopsAtFailure (traced walkFn) := by
  refine ⟨fun info st => ?_, fun info err st => ?_⟩
  · simpa [traced] using h.1 info st.1
  · simpa [traced] using h.2 info err st.1

theorem runVisits_traced_ok {σ : Type} (walkFn : WalkFunc σ) (h : StopsAtFailure walkFn)
    (vs : List Visit) (hvs : ∀ v ∈ vs, v.isOk = true) (s : σ) (log : List Visit) :
    runVisits (traced walkFn) vs (s, log)
      = (((runVisits walkFn vs s).1, log ++ vs), none) := by
  induction vs generalizing s log with
  | nil => simp [runVisits]
  | cons v vs ih =>
    cases v with
    | failed info err => simpa [Visit.isOk] using hvs _ (List.mem_cons_self _ _)
    | ok info =>
      have h1 := h.1 info s
      rcases hv : walkFn (.ok info) s with ⟨s1, _ | e⟩
      · simp [runVisits, traced, hv, ih (fun v hv => hvs v (List.mem_cons_of_mem _ hv))]
      · rw [hv] at h1; simp at h1

theorem runVisits_traced_fail {σ : Type} (walkFn : WalkFunc σ) (h : StopsAtFailure walkFn)
    (pre post : List Visit) (info : Option FileInfo) (e : GoError)
    (hpre : ∀ v ∈ pre, v.isOk = true) (s : σ) :
    (runVisits (traced walkFn) (pre ++ .failed info e :: post) (s, [])).1.2
      = pre ++ [.failed info e] := by
  rw [runVisits_append, runVisits_traced_ok walkFn h pre hpre]
  have h2 := h.2 info e (runVisits walkFn pre s).1
  rcases hv : walkFn (.failed info e) (runVisits walkFn pre s).1 with ⟨s1, _ | e1⟩
  · rw [hv] at h2; simp at h2
  · simp [runVisits, traced, hv]

theorem Accumulates.stops {walkFn : WalkFunc Int} {contrib : Visit → Int}
    (h : Accumulates walkFn contrib) (hfit : ∀ info s, (walkFn (.ok info) s).2 = none) :
    StopsAtFailure walkFn :=
  ⟨hfit, fun info err s => by rw [h.1]⟩

mutual
theorem visits_ok_of_readable : ∀ (t : Entry), t.readable = true → ∀ v ∈ t.visits, v.isOk = true
  | .lstatFails _, h => by simp [Entry.readable] at h
  | .file _, _ => by simp [Entry.visits, Visit.isOk]
  | .dirUnreadable _ _, h => by simp [Entry.readable] at h
  | .dir _ children, h => by
    intro v hv
    simp only [Entry.visits, List.mem_cons] at hv
    rcases hv with rfl | hv
    · rfl
    · exact visitsAll_ok_of_readable children (by simpa [Entry.readable] using h) v hv
theorem visitsAll_ok_of_readable : ∀ (ts : List Entry), Entry.readableAll ts = true →
    ∀ v ∈ Entry.visitsAll ts, v.isOk = true
  | [], _ => by simp [Entry.visitsAll]
  | c :: rest, h => by
    intro v hv
    simp only [Entry.readableAll, Bool.and_eq_true] at h
    simp only [Entry.visitsAll, List.mem_append] at hv
    rcases hv with hv | hv
    · exact visits_ok_of_readable c h.1 v hv
    · exact visitsAll_ok_of_readable rest h.2 v hv
end

mutual
theorem visits_fileSize_sum : ∀ (t : Entry), (t.visits.map Visit.fileSize).sum = t.fileBytes
  | .lstatFails _ => by simp [Entry.visits, Entry.fileBytes, Visit.fileSize]
  | .file _ => by simp [Entry.visits, Entry.fileBytes, Visit.fileSize]
  | .dirUnreadable _ _ => by simp [Entry.visits, Entry.fileBytes, Visit.fileSize]
  | .dir _ children => by
    simp [Entry.visits, Entry.fileBytes, Visit.fileSize, visitsAll_fileSize_sum children]
theorem visitsAll_fileSize_sum : ∀ (ts : List Entry),
    ((Entry.visitsAll ts).map Visit.fileSize).sum = Entry.fileBytesAll ts
  | [] => by simp [Entry.visitsAll, Entry.fileBytesAll]
  | c :: rest => by
    simp [Entry.visitsAll, Entry.fileBytesAll, visits_fileSize_sum c,
      visitsAll_fileSize_sum rest]
end

mutual
theorem visits_size_sum : ∀ (t : Entry), t.readable = true →
    (t.visits.map Visit.size).sum = t.fileBytes + t.dirBytes
  | .lstatFails _, h => by simp [Entry.readable] at h
  | .file _, _ => by simp [Entry.visits, Entry.fileBytes, Entry.dirBytes, Visit.size]
  | .dirUnreadable _ _, h => by simp [Entry.readable] at h
  | .dir _ children, h => by
    have := visitsAll_size_sum children (by simpa [Entry.readable] using h)
    simp [Entry.visits, Entry.fileBytes, Entry.dirBytes, Visit.size, this]
    ring
theorem visitsAll_size_sum : ∀ (ts : List Entry), Entry.readableAll ts = true →
    ((Entry.visitsAll ts).map Visit.size).sum = Entry.fileBytesAll ts + Entry.dirBytesAll ts
  | [], _ => by simp [Entry.visitsAll, Entry.fileBytesAll, Entry.dirBytesAll]
  | c :: rest, h => by
    simp only [Entry.readableAll, Bool.and_eq_true] at h
    simp [Entry.visitsAll, Entry.fileBytesAll, Entry.dirBytesAll, visits_size_sum c h.1,
      visitsAll_size_sum rest h.2]
    ring
end

end Go

namespace foldersize
open Go

theorem query_walkFn_accumulates : Accumulates getFolderSize.walkFn Visit.fileSize := by
  refine ⟨fun info err s => rfl, fun info s hs => ?_⟩
  cases hd : info.IsDir <;> simp [getFolderSize.walkFn, Visit.fileSize, hd, hs]

theorem query_walkFn_stops : StopsAtFailure getFolderSize.walkFn :=
  query_walkFn_accumulates.stops (fun info s => by
    cases hd : info.IsDir <;> simp [getFolderSize.walkFn, hd])

end foldersize

namespace caddyfolderlimit
open Go

theorem gate_walkFn_accumulates : Accumulates getFolderSize.walkFn Visit.size :=
  ⟨fun _ _ _ => rfl, fun _ _ _ => rfl⟩

theorem gate_walkFn_stops : StopsAtFailure getFolderSize.walkFn :=
  gate_walkFn_accumulates.stops (fun _ _ => rfl)

end caddyfolderlimit

/-! ## Lemmas: the size parser -/

namespace Go
namespace strconv

theorem digitsValue_cons (acc : Nat) (c : Char) (cs : List Char) :
    digitsValue acc (c :: cs) = digitsValue (acc * 10 + (c.toNat - 48)) cs := rfl

theorem le_digitsValue (acc : Nat) (ds : List Char) : acc ≤ digitsValue acc ds := by
  induction ds generalizing acc with
  | nil => exact le_refl _
  | cons c cs ih =>
    rw [digitsValue_cons]
    exact le_trans (by omega) (ih _)

theorem loop_digits (s0 : List Char) (cs : List Char) (hcs : cs.all isDecimalDigit = true)
    (n : Nat) (hn : n < 2 ^ 64) :
    ParseUint.loop s0 cs n =
      if digitsValue n cs < 2 ^ 64 then (digitsValue n cs, none)
      else (maxUint64, some ⟨"ParseUint", s0, .ErrRange⟩) := by
  induction cs generalizing n with
  | nil => simp only [ParseUint.loop, digitsValue, List.foldl_nil, if_pos hn]
  | cons c cs ih =>
    simp only [List.all_cons, Bool.and_eq_true] at hcs
    have hd : c.toNat - 48 ≤ 9 := by
      have := hcs.1
      simp only [isDecimalDigit, decide_eq_true_eq] at this
      omega
    have hmono := le_digitsValue (n * 10 + (c.toNat - 48)) cs
    rw [digitsValue_cons]
    simp only [ParseUint.loop, hcs.1, if_true, maxUint64]
    by_cases h1 : n ≥ (2 ^ 64 - 1) / 10 + 1
    · rw [if_pos h1, if_neg (by omega)]
    · rw [if_neg h1]
      have h2 : n * 10 % 2 ^ 64 = n * 10 := Nat.mod_eq_of_lt (by omega)
      rw [h2]
      by_cases h3 : n * 10 + (c.toNat - 48) < 2 ^ 64
      · have h4 : (n * 10 + (c.toNat - 48)) % 2 ^ 64 = n * 10 + (c.toNat - 48) :=
          Nat.mod_eq_of_lt h3
        rw [h4, if_neg (by omega)]
        exact ih hcs.2 _ h3
      · rw [if_pos (by omega), if_neg (by omega)]

theorem loop_error_shape (s0 : List Char) (cs : List Char) (n : Nat) (e : NumError)
    (h : (ParseUint.loop s0 cs n).2 = some e) :
    e.Err = .ErrSyntax ∨ (ParseUint.loop s0 cs n).1 = maxUint64 := by
  induction cs generalizing n with
  | nil => simp [ParseUint.loop] at h
  | cons c cs ih =>
    simp only [ParseUint.loop] at h ⊢
    split_ifs at h ⊢ with h1 h2 h3
    · right; rfl
    · right; rfl
    · exact ih _ h
    · left; simp at h; rw [← h]

theorem loop_nondigit (s0 : List Char) (cs : List Char) (hcs : cs.all isDecimalDigit = false)
    (n : Nat) : (ParseUint.loop s0 cs n).2 ≠ none := by
  induction cs generalizing n with
  | nil => simp at hcs
  | cons c cs ih =>
    simp only [ParseUint.loop]
    split_ifs with h1 h2 h3
    · simp
    · simp
    · refine ih ?_ _
      simpa [h1] using hcs
    · simp


theorem ParseUint_digits (ds : List Char) (hne : ds ≠ []) (hds : ds.all isDecimalDigit = true) :
    ParseUint ds =
      if digitsValue 0 ds < 2 ^ 64 then (digitsValue 0 ds, none)
      else (maxUint64, some ⟨"ParseUint", ds, .ErrRange⟩) := by
  rw [ParseUint, if_neg hne]
  exact loop_digits ds ds hds 0 (by norm_num)

theorem ParseUint_bad (ds : List Char) (h : ds = [] ∨ ds.all isDecimalDigit = false) :
    ∃ e, (ParseUint ds).2 = some e ∧ (e.Err = .ErrSyntax ∨ (ParseUint ds).1 = maxUint64) := by
  by_cases hne : ds = []
  · subst hne
    exact ⟨_, rfl, Or.inl rfl⟩
  · have hbad : ds.all isDecimalDigit = false := h.resolve_left hne
    rw [ParseUint, if_neg hne]
    cases hr : (ParseUint.loop ds ds 0).2 with
    | none => exact absurd hr (loop_nondigit ds ds hbad 0)
    | some e => exact ⟨e, rfl, loop_error_shape ds ds 0 e hr⟩

theorem ParseInt_unfold (s : List Char) (hne : s ≠ []) :
    ParseInt s =
      match ParseUint (splitSign s).2 with
      | (un, some err) =>
        if err.Err ≠ .ErrRange then (0, some { err with Func := "ParseInt", Num := s })
        else ParseInt.checkRange s (splitSign s).1 un
      | (un, none) => ParseInt.checkRange s (splitSign s).1 un := by
  cases s with
  | nil => exact absurd rfl hne
  | cons c rest =>
    by_cases h1 : c = '-'
    · subst h1; simp [ParseInt, splitSign]
    · by_cases h2 : c = '+'
      · subst h2; simp [ParseInt, splitSign]
      · simp [ParseInt, splitSign, h1, h2]

theorem checkRange_max (s0 : List Char) (neg : Bool) :
    ∃ e, (ParseInt.checkRange s0 neg maxUint64).2 = some e := by
  cases neg <;> simp [ParseInt.checkRange, maxUint64]

theorem checkRange_pos (s0 : List Char) (un : Nat) :
    ParseInt.checkRange s0 false un =
      if fitsInt64 (un : Int) then ((un : Int), none)
      else (2 ^ 63 - 1, some ⟨"ParseInt", s0, .ErrRange⟩) := by
  unfold ParseInt.checkRange fitsInt64
  simp only [Bool.not_false, true_and, Bool.false_eq_true, false_and, if_false]
  split_ifs with h1 h2 h2
  · exfalso; omega
  · simp
  · have h3 : int64 (un : Int) = un := by unfold int64; omega
    rw [h3]
  · exfalso; omega

theorem checkRange_neg (s0 : List Char) (un : Nat) :
    ParseInt.checkRange s0 true un =
      if fitsInt64 (-(un : Int)) then (-(un : Int), none)
      else (-(2 ^ 63), some ⟨"ParseInt", s0, .ErrRange⟩) := by
  unfold ParseInt.checkRange fitsInt64
  simp only [Bool.not_true, Bool.false_eq_true, false_and, if_false, true_and, if_true]
  split_ifs with h1 h2 h2
  · exfalso; omega
  · simp
  · have h3 : int64 (-int64 (un : Int)) = -(un : Int) := by unfold int64; omega
    rw [h3]
  · exfalso; omega

theorem checkRange_value (s0 : List Char) (neg : Bool) (un : Nat) :
    ParseInt.checkRange s0 neg un =
      if fitsInt64 (if neg then -(un : Int) else (un : Int)) then
        (if neg then -(un : Int) else (un : Int), none)
      else (if neg then -(2 ^ 63) else 2 ^ 63 - 1, some ⟨"ParseInt", s0, .ErrRange⟩) := by
  cases neg
  · simpa using checkRange_pos s0 un
  · simpa using checkRange_neg s0 un

/-- The result of `ParseInt` on a literal: its value when that fits, a range error
otherwise. -/
theorem ParseInt_of_literal (s : List Char) (hlit : isDecimalLiteral s = true) :
    ParseInt s =
      if fitsInt64 (literalValue s) then (literalValue s, none)
      else (if (splitSign s).1 then -(2 ^ 63) else 2 ^ 63 - 1,
        some ⟨"ParseInt", s, .ErrRange⟩) := by
  have hne : s ≠ [] := by
    rintro rfl
    simp [isDecimalLiteral, splitSign] at hlit
  simp only [isDecimalLiteral, Bool.and_eq_true, Bool.not_eq_true', List.isEmpty_eq_false] at hlit
  rw [ParseInt_unfold s hne, ParseUint_digits _ hlit.1 hlit.2]
  by_cases hv : digitsValue 0 (splitSign s).2 < 2 ^ 64
  · rw [if_pos hv]
    simp only [checkRange_value, literalValue]
  · rw [if_neg hv]
    simp only [ne_eq, not_true_eq_false, if_false]
    have hnf : ¬ fitsInt64 (literalValue s) := by
      unfold fitsInt64 literalValue
      split_ifs <;> omega
    rw [if_neg hnf]
    cases hneg : (splitSign s).1 <;> simp [ParseInt.checkRange, maxUint64]

/-- On a string that is not a literal `ParseInt` returns an error. -/
theorem ParseInt_of_not_literal (s : List Char) (hlit : isDecimalLiteral s = false) :
    ∃ e, (ParseInt s).2 = some e := by
  by_cases hne : s = []
  · subst hne; exact ⟨_, rfl⟩
  · have hbad : (splitSign s).2 = [] ∨ (splitSign s).2.all isDecimalDigit = false := by
      simp only [isDecimalLiteral, Bool.and_eq_false_iff, Bool.not_eq_false',
        List.isEmpty_iff] at hlit
      exact hlit
    obtain ⟨e, he, hshape⟩ := ParseUint_bad _ hbad
    rw [ParseInt_unfold s hne]
    rcases hr : ParseUint (splitSign s).2 with ⟨un, _ | err⟩
    · rw [hr] at he; simp at he
    · rw [hr] at he hshape
      simp only [Option.some.injEq] at he
      subst he
      simp only
      by_cases hk : err.Err = .ErrRange
      · have hun : un = maxUint64 := by
          rcases hshape with h | h
          · rw [hk] at h; cases h
          · exact h
        subst hun
        simpa [hk] using checkRange_max s (splitSign s).1
      · exact ⟨{ err with Func := "ParseInt", Num := s }, by simp [hk]⟩

theorem ParseInt_error (s : List Char)
    (h : ¬ (isDecimalLiteral s = true ∧ fitsInt64 (literalValue s))) :
    ∃ e, (ParseInt s).2 = some e := by
  cases hlit : isDecimalLiteral s with
  | false => exact ParseInt_of_not_literal s hlit
  | true =>
    have hnf : ¬ fitsInt64 (literalValue s) := fun hf => h ⟨hlit, hf⟩
    rw [ParseInt_of_literal s hlit, if_neg hnf]
    exact ⟨_, rfl⟩

end strconv
namespace strings

theorem HasSuffix_append (l suffix : List Char) : HasSuffix (l ++ suffix) suffix = true := by
  simp [HasSuffix]

theorem TrimSuffix_append (l suffix : List Char) : TrimSuffix (l ++ suffix) suffix = l := by
  simp [TrimSuffix, HasSuffix_append]

theorem HasSuffix_append_ne (l a b : List Char) (hlen : a.length = b.length) (hne : a ≠ b) :
    HasSuffix (l ++ a) b = false := by
  simp [HasSuffix, hlen.symm, hne]

theorem HasSuffix_of_not_mem (l suffix : List Char) (c : Char) (hc : c ∈ suffix)
    (hl : c ∉ l) : HasSuffix l suffix = false := by
  simp only [HasSuffix, Bool.and_eq_false_iff, decide_eq_false_iff_not]
  right
  intro h
  rw [← h] at hc
  exact hl (List.mem_of_mem_drop hc)

end strings

namespace strconv

theorem mem_literal (s : List Char) (hlit : isDecimalLiteral s = true) (c : Char) (hc : c ∈ s) :
    c = '+' ∨ c = '-' ∨ isDecimalDigit c = true := by
  simp only [isDecimalLiteral, Bool.and_eq_true, List.all_eq_true] at hlit
  cases s with
  | nil => simp at hc
  | cons a rest =>
    by_cases h1 : a = '-'
    · subst h1
      simp only [splitSign, if_true] at hlit
      rcases List.mem_cons.1 hc with rfl | h
      · exact Or.inr (Or.inl rfl)
      · exact Or.inr (Or.inr (hlit.2 c h))
    · by_cases h2 : a = '+'
      · subst h2
        simp only [splitSign, h1, if_false, if_true] at hlit
        rcases List.mem_cons.1 hc with rfl | h
        · exact Or.inl rfl
        · exact Or.inr (Or.inr (hlit.2 c h))
      · simp only [splitSign, h1, h2, if_false] at hlit
        exact Or.inr (Or.inr (hlit.2 c hc))

theorem literal_char_ascii (c : Char) (h : c = '+' ∨ c = '-' ∨ isDecimalDigit c = true) :
    c.toNat < 128 ∧ c.toLower = c := by
  rcases h with rfl | rfl | h
  · decide
  · decide
  · simp only [isDecimalDigit, decide_eq_true_eq] at h
    refine ⟨by omega, ?_⟩
    unfold Char.toLower
    simp only
    rw [if_neg (by omega)]

theorem ascii_of_toLower_ascii (c : Char) (h : c.toLower.toNat < 128) : c.toNat < 128 := by
  unfold Char.toLower at h
  simp only at h
  split_ifs at h with h1
  · omega
  · exact h

end strconv
end Go

namespace caddyfolderlimit
open Go strconv

theorem ToLower_literal_suffix (unicodeToLower : Char → Char)
    (hascii : LowersASCII unicodeToLower)
    (lit suffix : List Char) (hlit : isDecimalLiteral lit = true)
    (hsuf : suffix.map Char.toLower ∈ sizeSuffixes) :
    strings.ToLower unicodeToLower (lit ++ suffix) = lit ++ suffix.map Char.toLower := by
  unfold strings.ToLower
  rw [List.map_append]
  congr 1
  · conv_rhs => rw [← List.map_id lit]
    apply List.map_congr_left
    intro c hc
    have := literal_char_ascii c (mem_literal lit hlit c hc)
    rw [hascii c this.1, this.2, id]
  · apply List.map_congr_left
    intro c hc
    apply hascii
    apply ascii_of_toLower_ascii
    have hmem : c.toLower ∈ suffix.map Char.toLower := List.mem_map_of_mem _ hc
    simp only [sizeSuffixes, List.mem_cons, List.mem_singleton, List.not_mem_nil, or_false] at hsuf
    rcases hsuf with h | h | h | h <;> rw [h] at hmem
    · simp at hmem
    all_goals
      simp only [String.toList, List.mem_cons, List.mem_singleton, List.not_mem_nil,
        or_false] at hmem
      rcases hmem with h | h <;> rw [h] <;> decide

theorem switch_literal_suffix (lit base : List Char) (hlit : isDecimalLiteral lit = true)
    (hbase : base ∈ sizeSuffixes) :
    parseSize.switch (lit ++ base) = (suffixMultiplier base, lit) := by
  have hb : 'b' ∉ lit := by
    intro h
    rcases mem_literal lit hlit _ h with h | h | h <;> revert h <;> decide
  simp only [sizeSuffixes, List.mem_cons, List.mem_singleton, List.not_mem_nil, or_false] at hbase
  unfold parseSize.switch
  rcases hbase with rfl | rfl | rfl | rfl
  · rw [List.append_nil, strings.HasSuffix_of_not_mem lit _ 'b' (by decide) hb,
      strings.HasSuffix_of_not_mem lit _ 'b' (by decide) hb,
      strings.HasSuffix_of_not_mem lit _ 'b' (by decide) hb]
    rfl
  · rw [strings.HasSuffix_append, strings.TrimSuffix_append]
    rfl
  · rw [strings.HasSuffix_append_ne _ _ _ (by decide) (by decide), strings.HasSuffix_append,
      strings.TrimSuffix_append]
    rfl
  · rw [strings.HasSuffix_append_ne _ _ _ (by decide) (by decide),
      strings.HasSuffix_append_ne _ _ _ (by decide) (by decide), strings.HasSuffix_append,
      strings.TrimSuffix_append]
    rfl

/-- The result of `parseSize` on a literal that fits in an `int64`, followed by a
suffix of the grammar in any mix of cases: no error, and the product reduced to an
`int64`. -/
theorem parseSize_literal_suffix (unicodeToLower : Char → Char)
    (hascii : LowersASCII unicodeToLower)
    (lit suffix : List Char) (hlit : isDecimalLiteral lit = true)
    (hsuf : suffix.map Char.toLower ∈ sizeSuffixes)
    (hfit : fitsInt64 (literalValue lit)) :
    parseSize unicodeToLower (lit ++ suffix)
      = (int64 (literalValue lit * suffixMultiplier (suffix.map Char.toLower)), none) := by
  unfold parseSize
  rw [ToLower_literal_suffix unicodeToLower hascii lit suffix hlit hsuf,
    switch_literal_suffix lit _ hlit hsuf]
  simp only
  rw [ParseInt_of_literal lit hlit, if_pos hfit]

end caddyfolderlimit

/-! ## The claims -/

namespace Go

theorem fileBytesAll_files (sizes : List Int) :
    Entry.fileBytesAll (sizes.map Entry.file) = sizes.sum := by
  induction sizes with
  | nil => rfl
  | cons a rest ih => simp [Entry.fileBytesAll, Entry.fileBytes, ih]

theorem readableAll_files (sizes : List Int) :
    Entry.readableAll (sizes.map Entry.file) = true := by
  induction sizes with
  | nil => rfl
  | cons a rest ih => simp [Entry.readableAll, Entry.readable, ih]

end Go

namespace foldersize
open Go

theorem query_getFolderSize_of_readable (fs : FileSystem) (path : GoString)
    (h : (fs path).readable = true) :
    getFolderSize fs path = (int64 (fs path).fileBytes, none) := by
  unfold getFolderSize
  rw [Walk_eq_runVisits _ query_walkFn_stops,
    runVisits_accumulates_ok _ _ query_walkFn_accumulates _ (visits_ok_of_readable _ h) 0
      (by decide),
    visits_fileSize_sum, zero_add]

theorem query_getFolderSize_of_failure (fs : FileSystem) (path : GoString)
    (pre post : List Visit) (info : Option FileInfo) (e : GoError)
    (hsplit : (fs path).visits = pre ++ .failed info e :: post)
    (hpre : ∀ v ∈ pre, v.isOk = true) :
    getFolderSize fs path = (int64 (pre.map Visit.fileSize).sum, some e) ∧
      getFolderSize.visited fs path = pre ++ [.failed info e] := by
  unfold getFolderSize getFolderSize.visited
  rw [Walk_eq_runVisits _ query_walkFn_stops,
    Walk_eq_runVisits _ (traced_stops _ query_walkFn_stops), hsplit]
  exact ⟨runVisits_accumulates_fail _ _ query_walkFn_accumulates pre post info e hpre,
    runVisits_traced_fail _ query_walkFn_stops pre post info e hpre 0⟩

end foldersize

namespace caddyfolderlimit
open Go

theorem gate_getFolderSize_of_readable (fs : FileSystem) (path : GoString)
    (h : (fs path).readable = true) :
    getFolderSize fs path = (int64 ((fs path).fileBytes + (fs path).dirBytes), none) := by
  unfold getFolderSize
  rw [Walk_eq_runVisits _ gate_walkFn_stops,
    runVisits_accumulates_ok _ _ gate_walkFn_accumulates _ (visits_ok_of_readable _ h) 0
      (by decide),
    visits_size_sum _ h, zero_add]

theorem gate_getFolderSize_of_failure (fs : FileSystem) (path : GoString)
    (pre post : List Visit) (info : Option FileInfo) (e : GoError)
    (hsplit : (fs path).visits = pre ++ .failed info e :: post)
    (hpre : ∀ v ∈ pre, v.isOk = true) :
    getFolderSize fs path = (int64 (pre.map Visit.size).sum, some e) ∧
      getFolderSize.visited fs path = pre ++ [.failed info e] := by
  unfold getFolderSize getFolderSize.visited
  rw [Walk_eq_runVisits _ gate_walkFn_stops,
    Walk_eq_runVisits _ (traced_stops _ gate_walkFn_stops), hsplit]
  exact ⟨runVisits_accumulates_fail _ _ gate_walkFn_accumulates pre post info e hpre,
    runVisits_traced_fail _ gate_walkFn_stops pre post info e hpre 0⟩

end caddyfolderlimit

open Go

/-- C1, as stated, fails: a readable directory that holds two files of `2^62` bytes
each has `2^63` bytes of content, and `getFolderSize` of `foldersize.go` returns
`-2^63` for it, with no error. -/
theorem foldersize_getFolderSize_overflow :
    twoSparseFiles.readable = true ∧ twoSparseFiles.fileBytes = 2 ^ 63 ∧
      foldersize.getFolderSize (fun _ => twoSparseFiles) "/data" = (-(2 ^ 63), none) ∧
      (foldersize.getFolderSize (fun _ => twoSparseFiles) "/data").1
        ≠ twoSparseFiles.fileBytes := by
  refine ⟨by rfl, by rfl, by rfl, ?_⟩
  have h1 : (foldersize.getFolderSize (fun _ => twoSparseFiles) "/data").1 = -(2 ^ 63) := by rfl
  have h2 : twoSparseFiles.fileBytes = 2 ^ 63 := by rfl
  rw [h1, h2]
  norm_num

/-- C1, amended: for every directory tree in which every entry can be read,
`getFolderSize` of `foldersize.go` returns no error and the sum of the sizes of all
non-directory entries at every depth, reduced modulo `2^64` into the `int64` range;
it is exactly that sum whenever the sum fits in an `int64`. Directories contribute
nothing. An empty directory yields 0, and a directory of files only yields the sum of
their sizes when that sum fits. -/
theorem foldersize_getFolderSize_sums_files :
    (∀ (fs : FileSystem) (path : GoString), (fs path).readable = true →
      foldersize.getFolderSize fs path = (int64 (fs path).fileBytes, none) ∧
      (fitsInt64 (fs path).fileBytes →
        foldersize.getFolderSize fs path = ((fs path).fileBytes, none))) ∧
    (∀ (fs : FileSystem) (path : GoString) (dirSize : Int), fs path = .dir dirSize [] →
      foldersize.getFolderSize fs path = (0, none)) ∧
    (∀ (fs : FileSystem) (path : GoString) (dirSize : Int) (sizes : List Int),
      fs path = .dir dirSize (sizes.map Entry.file) → fitsInt64 sizes.sum →
      foldersize.getFolderSize fs path = (sizes.sum, none)) := by
  refine ⟨fun fs path h =>
      ⟨foldersize.query_getFolderSize_of_readable fs path h, fun hfit => ?_⟩,
    fun fs path dirSize h => ?_, fun fs path dirSize sizes h hfit => ?_⟩
  · rw [foldersize.query_getFolderSize_of_readable fs path h, int64_of_fits _ hfit]
  · rw [foldersize.query_getFolderSize_of_readable fs path (by rw [h]; rfl), h]
    rfl
  · have hr : (fs path).readable = true := by
      rw [h]; simp [Entry.readable, readableAll_files]
    have hb : (fs path).fileBytes = sizes.sum := by
      rw [h]; simp [Entry.fileBytes, fileBytesAll_files]
    rw [foldersize.query_getFolderSize_of_readable fs path hr, hb, int64_of_fits _ hfit]

/-- C1, witness: a directory with a file of 3 bytes and a subdirectory with a file of
4 bytes, the directories of 4096 bytes each, measures 7 bytes. -/
theorem foldersize_getFolderSize_sums_files_witness :
    nestedTree.readable = true ∧
      foldersize.getFolderSize (fun _ => nestedTree) "/data" = (7, none) :=
  ⟨by decide, ((foldersize_getFolderSize_sums_files.1 (fun _ => nestedTree) "/data"
    (by decide)).2 (by decide))⟩

/-- C9, as stated, fails: for a readable directory of 4096 bytes that holds files of
`2^62` and `2^62 - 4096` bytes, the query calculator returns `2^63 - 4096`, the
directory sizes sum to 4096, and the gate calculator returns `-2^63`, which is not
the sum `2^63` of the two. -/
theorem gate_size_not_query_plus_dirs :
    almostFullTree.readable = true ∧
      foldersize.getFolderSize (fun _ => almostFullTree) "/data" = (2 ^ 63 - 4096, none) ∧
      almostFullTree.dirBytes = 4096 ∧
      caddyfolderlimit.getFolderSize (fun _ => almostFullTree) "/data" = (-(2 ^ 63), none) ∧
      (caddyfolderlimit.getFolderSize (fun _ => almostFullTree) "/data").1 ≠
        (foldersize.getFolderSize (fun _ => almostFullTree) "/data").1
          + almostFullTree.dirBytes := by
  refine ⟨by rfl, by rfl, by rfl, by rfl, ?_⟩
  have h1 : (caddyfolderlimit.getFolderSize (fun _ => almostFullTree) "/data").1
      = -(2 ^ 63) := by rfl
  have h2 : (foldersize.getFolderSize (fun _ => almostFullTree) "/data").1
      = 2 ^ 63 - 4096 := by rfl
  have h3 : almostFullTree.dirBytes = 4096 := by rfl
  rw [h1, h2, h3]
  norm_num

/-- C9, amended: for every directory tree that can be read without error, neither
calculator fails and the gate's `getFolderSize` (`main.go`) equals the query's
`getFolderSize` (`foldersize.go`) plus the sum of the own sizes of all directory
entries, the root included, reduced modulo `2^64` into the `int64` range (so it is
exactly that sum whenever the sum fits in an `int64`). The two results agree if and
only if the sum of the directory sizes is a multiple of `2^64`; when that sum is below
`2^64` in absolute value, they agree if and only if it is 0. For some readable tree
the two results differ. -/
theorem gate_size_is_query_size_plus_dirs :
    (∀ (fs : FileSystem) (path : GoString), (fs path).readable = true →
      (foldersize.getFolderSize fs path).2 = none ∧
      caddyfolderlimit.getFolderSize fs path =
        (int64 ((foldersize.getFolderSize fs path).1 + (fs path).dirBytes), none) ∧
      (fitsInt64 ((foldersize.getFolderSize fs path).1 + (fs path).dirBytes) →
        (caddyfolderlimit.getFolderSize fs path).1 =
          (foldersize.getFolderSize fs path).1 + (fs path).dirBytes) ∧
      (caddyfolderlimit.getFolderSize fs path = foldersize.getFolderSize fs path ↔
        (2 ^ 64 : Int) ∣ (fs path).dirBytes) ∧
      (|(fs path).dirBytes| < 2 ^ 64 →
        (caddyfolderlimit.getFolderSize fs path = foldersize.getFolderSize fs path ↔
          (fs path).dirBytes = 0))) ∧
    (∃ (fs : FileSystem) (path : GoString), (fs path).readable = true ∧
      caddyfolderlimit.getFolderSize fs path ≠ foldersize.getFolderSize fs path) := by
  refine ⟨fun fs path h => ?_, ⟨fun _ => nineBytes, "/data", by decide, by decide⟩⟩
  have hq := foldersize.query_getFolderSize_of_readable fs path h
  have hg := caddyfolderlimit.gate_getFolderSize_of_readable fs path h
  have hsum : int64 (int64 (fs path).fileBytes + (fs path).dirBytes)
      = int64 ((fs path).fileBytes + (fs path).dirBytes) := int64_add_int64 _ _
  have hiff : caddyfolderlimit.getFolderSize fs path = foldersize.getFolderSize fs path ↔
      (2 ^ 64 : Int) ∣ (fs path).dirBytes := by
    rw [hq, hg]
    simp only [Prod.mk.injEq, and_true]
    rw [int64_eq_iff]
    simp
  refine ⟨by rw [hq], by rw [hq, hg, hsum], fun hfit => ?_, hiff, fun hsmall => ?_⟩
  · rw [hg, hq] at *
    simp only at hfit ⊢
    rw [← hsum, int64_of_fits _ hfit]
  · rw [hiff]
    constructor
    · intro hdvd
      obtain ⟨k, hk⟩ := hdvd
      rw [abs_lt] at hsmall
      omega
    · intro h0
      rw [h0]
      exact dvd_zero _

/-- C9, witness: for a directory of 4096 bytes holding one file of 9 bytes the query
calculator returns 9 and the gate calculator 4105. -/
theorem gate_size_is_query_size_plus_dirs_witness :
    nineBytes.readable = true ∧
      foldersize.getFolderSize (fun _ => nineBytes) "/data" = (9, none) ∧
      caddyfolderlimit.getFolderSize (fun _ => nineBytes) "/data" = (4105, none) :=
  ⟨by decide, by decide,
    (gate_size_is_query_size_plus_dirs.1 (fun _ => nineBytes) "/data" (by decide)).2.1⟩

/-- C5, as stated, fails: in a directory whose second entry cannot be read, after a
first file of 5 bytes, both calculators return the error together with the partial sum
(5 for the query calculator, 4101 for the gate calculator), not with 0. -/
theorem getFolderSize_error_keeps_partial_sum :
    foldersize.getFolderSize (fun _ => partlyUnreadable) "/data"
        = (5, some (.Other "permission denied")) ∧
      caddyfolderlimit.getFolderSize (fun _ => partlyUnreadable) "/data"
        = (4101, some (.Other "permission denied")) ∧
      (foldersize.getFolderSize (fun _ => partlyUnreadable) "/data").1 ≠ 0 ∧
      (caddyfolderlimit.getFolderSize (fun _ => partlyUnreadable) "/data").1 ≠ 0 := by
  decide

/-- C5, amended: when the walk of a tree meets an entry that cannot be read (a failed
Lstat, the root included, or a directory that cannot be listed), after the visits
`pre` that all succeeded, both variants of `getFolderSize` return the error of that
first failure, the callback is invoked on `pre` and on the failing entry and on nothing
after it, and the size returned alongside the error is the partial sum accumulated
over `pre` (reduced to an `int64`): the file sizes of `pre` for `foldersize.go`, the
sizes of all entries of `pre` for `main.go`. It is 0 when nothing was visited before
the failure; for a root path that does not exist both variants return 0 and the error
of Lstat. -/
theorem getFolderSize_stops_at_first_error (fs : FileSystem) (path : GoString)
    (pre post : List Visit) (info : Option FileInfo) (e : GoError)
    (hsplit : (fs path).visits = pre ++ .failed info e :: post)
    (hpre : ∀ v ∈ pre, v.isOk = true) :
    foldersize.getFolderSize fs path = (int64 (pre.map Visit.fileSize).sum, some e) ∧
      foldersize.getFolderSize.visited fs path = pre ++ [.failed info e] ∧
      caddyfolderlimit.getFolderSize fs path = (int64 (pre.map Visit.size).sum, some e) ∧
      caddyfolderlimit.getFolderSize.visited fs path = pre ++ [.failed info e] ∧
      (pre = [] → foldersize.getFolderSize fs path = (0, some e) ∧
        caddyfolderlimit.getFolderSize fs path = (0, some e)) ∧
      (∀ msg, fs path = .lstatFails msg →
        foldersize.getFolderSize fs path = (0, some (.Other msg)) ∧
        caddyfolderlimit.getFolderSize fs path = (0, some (.Other msg))) := by
  have hq := foldersize.query_getFolderSize_of_failure fs path pre post info e hsplit hpre
  have hg :=
    caddyfolderlimit.gate_getFolderSize_of_failure fs path pre post info e hsplit hpre
  refine ⟨hq.1, hq.2, hg.1, hg.2, fun h0 => ?_, fun msg hroot => ?_⟩
  · subst h0
    exact ⟨hq.1, hg.1⟩
  · have hv : (fs path).visits = [] ++ .failed none (.Other msg) :: [] := by
      rw [hroot]; rfl
    exact ⟨(foldersize.query_getFolderSize_of_failure fs path [] [] none (.Other msg) hv
        (by simp)).1,
      (caddyfolderlimit.gate_getFolderSize_of_failure fs path [] [] none (.Other msg) hv
        (by simp)).1⟩

/-- C5, witness: the directory whose entries are a file of 5 bytes, an entry that
cannot be read and a file of 7 bytes: the walk stops at the second entry, the file of
7 bytes is not visited, and the sizes returned with the error are 5 and 4101. -/
theorem getFolderSize_stops_at_first_error_witness :
    foldersize.getFolderSize (fun _ => partlyUnreadable) "/data"
        = (5, some (.Other "permission denied")) ∧
      foldersize.getFolderSize.visited (fun _ => partlyUnreadable) "/data"
        = [.ok ⟨true, 4096⟩, .ok ⟨false, 5⟩, .failed none (.Other "permission denied")] ∧
      caddyfolderlimit.getFolderSize (fun _ => partlyUnreadable) "/data"
        = (4101, some (.Other "permission denied")) ∧
      caddyfolderlimit.getFolderSize.visited (fun _ => partlyUnreadable) "/data"
        = [.ok ⟨true, 4096⟩, .ok ⟨false, 5⟩, .failed none (.Other "permission denied")] :=
  have h := getFolderSize_stops_at_first_error (fun _ => partlyUnreadable) "/data"
    [.ok ⟨true, 4096⟩, .ok ⟨false, 5⟩] [.ok ⟨false, 7⟩] none (.Other "permission denied")
    (by decide) (by decide)
  ⟨h.1, h.2.1, h.2.2.1, h.2.2.2.1⟩

/-- C2: whenever the size computation of the gate succeeds with size `s`, then with
`m = fl.MaxSize`: the gate answers 403 with the text "Folder size limit exceeded",
returns nil and hands no request to the next handler if and only if `s > m`; and if
`s ≤ m` (equality included) it makes no call on the writer itself, calls the next
handler exactly once, on the untouched writer and the unchanged request, and returns
what that handler returns. -/
theorem FolderLimit_ServeHTTP_decides (fl : caddyfolderlimit.FolderLimit) (fs : FileSystem)
    (w : http.ResponseWriter) (r : http.Request) (next : http.Handler) (s : Int)
    (hsize : caddyfolderlimit.getFolderSize fs fl.FolderPath = (s, none)) :
    (((fl.ServeHTTP fs w r next).1.w
          = w ++ [.Error "Folder size limit exceeded" http.StatusForbidden] ∧
        (fl.ServeHTTP fs w r next).2 = none ∧
        (fl.ServeHTTP fs w r next).1.forwarded = []) ↔ s > fl.MaxSize) ∧
    (s ≤ fl.MaxSize →
      (fl.ServeHTTP fs w r next).1.w = (next w r).1 ∧
      (fl.ServeHTTP fs w r next).1.forwarded = [r] ∧
      (fl.ServeHTTP fs w r next).2 = (next w r).2) := by
  unfold caddyfolderlimit.FolderLimit.ServeHTTP
  rw [hsize]
  by_cases h : s > fl.MaxSize
  · simp only [h, if_true, true_and, and_self, iff_true]
    exact fun h2 => absurd h (not_lt.2 h2)
  · have hle : s ≤ fl.MaxSize := not_lt.1 h
    simp only [h, if_false, iff_false, hle, forall_true_left, and_self, and_true]
    intro hcon
    exact absurd hcon.2.2 (by simp)

/-- C2, witness: a folder of exactly 10 bytes under `max_size` 10 is passed to the next
handler, and the only call on the writer is the one that handler makes. -/
theorem FolderLimit_ServeHTTP_decides_witness :
    caddyfolderlimit.getFolderSize (fun _ => .dir 0 [.file 10]) "/data" = (10, none) ∧
      (caddyfolderlimit.FolderLimit.ServeHTTP ⟨"/data", 10⟩ (fun _ => .dir 0 [.file 10]) []
        ⟨[]⟩ respondingNext).1.forwarded = [⟨[]⟩] ∧
      (caddyfolderlimit.FolderLimit.ServeHTTP ⟨"/data", 10⟩ (fun _ => .dir 0 [.file 10]) []
        ⟨[]⟩ respondingNext).1.w = [.HeaderSet "X-Next" "called"] :=
  have h := (FolderLimit_ServeHTTP_decides ⟨"/data", 10⟩ (fun _ => .dir 0 [.file 10]) []
    ⟨[]⟩ respondingNext 10 (by decide)).2 (by decide)
  ⟨by decide, h.2.1, h.1⟩

/-- C3, failing input: the gate configured with `max_size` 10 on a directory of 4096
bytes that holds one file of 9 bytes. The content is 9 bytes, not more than 10, yet
the gate's `getFolderSize` returns 4105 and `ServeHTTP` answers 403 without calling
the next handler. With a file of 11 bytes in place of the 9 it answers 403 as well. -/
theorem FolderLimit_ServeHTTP_counts_directories (r : http.Request) (next : http.Handler) :
    nineBytes.readable = true ∧ nineBytes.fileBytes = 9 ∧
      caddyfolderlimit.getFolderSize (fun _ => nineBytes) "/data" = (4105, none) ∧
      caddyfolderlimit.FolderLimit.ServeHTTP ⟨"/data", 10⟩ (fun _ => nineBytes) [] r next
        = (⟨[.Error "Folder size limit exceeded" 403], ["/data"], []⟩, none) ∧
      caddyfolderlimit.FolderLimit.ServeHTTP ⟨"/data", 10⟩ (fun _ => elevenBytes) [] r next
        = (⟨[.Error "Folder size limit exceeded" 403], ["/data"], []⟩, none) :=
  ⟨by decide, by decide, by decide, by rfl, by rfl⟩

/-- C6: if the size computation of the gate fails with error `e`, `ServeHTTP` returns
`e`, makes no call on the response writer and hands no request to the next handler,
whatever the request, the configuration and the next handler are. -/
theorem FolderLimit_ServeHTTP_propagates (fl : caddyfolderlimit.FolderLimit)
    (fs : FileSystem) (w : http.ResponseWriter) (r : http.Request) (next : http.Handler)
    (s : Int) (e : GoError)
    (hfail : caddyfolderlimit.getFolderSize fs fl.FolderPath = (s, some e)) :
    fl.ServeHTTP fs w r next = (⟨w, [fl.FolderPath], []⟩, some e) := by
  unfold caddyfolderlimit.FolderLimit.ServeHTTP
  rw [hfail]

/-- C6, witness: the gate on a path that does not exist returns the error of Lstat and
leaves the writer and the next handler alone. -/
theorem FolderLimit_ServeHTTP_propagates_witness :
    caddyfolderlimit.getFolderSize (fun _ => .lstatFails "no such file or directory") "/gone"
        = (0, some (.Other "no such file or directory")) ∧
      caddyfolderlimit.FolderLimit.ServeHTTP ⟨"/gone", 10⟩
        (fun _ => .lstatFails "no such file or directory") [] ⟨[]⟩
        respondingNext
        = (⟨[], ["/gone"], []⟩, some (.Other "no such file or directory")) :=
  ⟨by decide, FolderLimit_ServeHTTP_propagates ⟨"/gone", 10⟩
    (fun _ => .lstatFails "no such file or directory") [] ⟨[]⟩
    respondingNext 0 (.Other "no such file or directory")
    (by decide)⟩

theorem coerceFrom_of_validFrom (pending : Nat) (bytes : List UInt8)
    (h : utf8.validFrom pending bytes = true) : http.coerceFrom pending bytes = bytes := by
  induction bytes generalizing pending with
  | nil => cases pending <;> rfl
  | cons b rest ih =>
    cases pending with
    | succ p =>
      simp only [utf8.validFrom] at h
      simp only [http.coerceFrom, ih p h]
    | zero =>
      simp only [utf8.validFrom] at h
      simp only [http.coerceFrom]
      cases hr : utf8.runeLen (b :: rest) with
      | none => rw [hr] at h; cases h
      | some n =>
        rw [hr] at h
        simp only [ih (n - 1) h]

theorem jsonString_of_valid (s : GoString) (h : utf8.ValidString s = true) :
    http.jsonString s = s := by
  cases s with
  | mk bytes =>
    simp only [http.jsonString, coerceFrom_of_validFrom 0 bytes h]

/-- C8, as stated, fails in two places. For a request whose folder does not exist,
`getFolderSize` fails with the message "no such file or directory" and the body of the
500 response is that message followed by a newline, not the message. For a request
whose `folder` value is the single byte `0xFF`, naming an empty directory, the `folder`
field of the JSON object is U+FFFD, not the given path. -/
theorem FolderSize_ServeHTTP_body_differs :
    (foldersize.getFolderSize (fun _ => .lstatFails "no such file or directory") "/gone"
        = (0, some (.Other "no such file or directory")) ∧
      http.body (foldersize.FolderSize.ServeHTTP
          (fun _ => .lstatFails "no such file or directory") []
          ⟨[("folder", ["/gone"])]⟩).1.w
        = [.raw "no such file or directory\n"] ∧
      http.body (foldersize.FolderSize.ServeHTTP
          (fun _ => .lstatFails "no such file or directory") []
          ⟨[("folder", ["/gone"])]⟩).1.w
        ≠ [.raw (GoError.Other "no such file or directory").Error]) ∧
    (foldersize.getFolderSize (fun _ => .dir 4096 []) ⟨[0xFF]⟩ = (0, none) ∧
      http.body (foldersize.FolderSize.ServeHTTP (fun _ => .dir 4096 []) []
          ⟨[("folder", [⟨[0xFF]⟩])]⟩).1.w
        = [.jsonLine [("folder", .str ⟨[0xEF, 0xBF, 0xBD]⟩), ("size", .num 0)]] ∧
      http.body (foldersize.FolderSize.ServeHTTP (fun _ => .dir 4096 []) []
          ⟨[("folder", [⟨[0xFF]⟩])]⟩).1.w
        ≠ [.jsonLine [("folder", .str ⟨[0xFF]⟩), ("size", .num 0)]]) := by
  decide

/-- C8, amended: the outcome of `FolderSize.ServeHTTP` is determined by the `folder`
query parameter and the result of `getFolderSize` on it. If the parameter is absent or
empty the handler answers 400 and `getFolderSize` is not called. Otherwise
`getFolderSize` is called once, on that path. If it fails with `e`, the response is
500 with a plain-text body equal to the message of `e` followed by a newline. If it
succeeds with size `n`, the response is 200 with `Content-Type: application/json` and
the JSON object whose fields are `folder`, the given path with every byte that is not
part of valid UTF-8 replaced by U+FFFD (the path itself when it is valid UTF-8), and
`size`, `n`. The handler returns nil in every case. -/
theorem FolderSize_ServeHTTP_response (fs : FileSystem) (w : http.ResponseWriter)
    (r : http.Request) :
    (r.Query.lookup ("folder" : GoString) = none → r.Query.Get "folder" = "") ∧
    (r.Query.Get "folder" = "" →
      foldersize.FolderSize.ServeHTTP fs w r
        = (⟨w ++ [.Error "folder parameter is required" 400], [], []⟩, none) ∧
      http.statusCode (foldersize.FolderSize.ServeHTTP fs [] r).1.w = some 400) ∧
    (r.Query.Get "folder" ≠ "" → ∀ (n : Int) (e : GoError),
      foldersize.getFolderSize fs (r.Query.Get "folder") = (n, some e) →
      foldersize.FolderSize.ServeHTTP fs w r
        = (⟨w ++ [.Error e.Error 500], [r.Query.Get "folder"], []⟩, none) ∧
      http.statusCode (foldersize.FolderSize.ServeHTTP fs [] r).1.w = some 500 ∧
      http.contentType (foldersize.FolderSize.ServeHTTP fs [] r).1.w
        = some "text/plain; charset=utf-8" ∧
      http.body (foldersize.FolderSize.ServeHTTP fs [] r).1.w
        = [.raw (e.Error.append "\n")]) ∧
    (r.Query.Get "folder" ≠ "" → ∀ (n : Int),
      foldersize.getFolderSize fs (r.Query.Get "folder") = (n, none) →
      foldersize.FolderSize.ServeHTTP fs w r
        = (⟨w ++ [.HeaderSet "Content-Type" "application/json",
            .Encode [("folder", .str (r.Query.Get "folder")), ("size", .num n)]],
            [r.Query.Get "folder"], []⟩, none) ∧
      http.statusCode (foldersize.FolderSize.ServeHTTP fs [] r).1.w = some 200 ∧
      http.contentType (foldersize.FolderSize.ServeHTTP fs [] r).1.w
        = some "application/json" ∧
      http.body (foldersize.FolderSize.ServeHTTP fs [] r).1.w
        = [.jsonLine [("folder", .str (http.jsonString (r.Query.Get "folder"))),
            ("size", .num n)]] ∧
      (utf8.ValidString (r.Query.Get "folder") = true →
        http.jsonString (r.Query.Get "folder") = r.Query.Get "folder")) ∧
    (foldersize.FolderSize.ServeHTTP fs w r).2 = none := by
  refine ⟨fun h => ?_, fun h => ⟨?_, ?_⟩, fun h n e hr => ⟨?_, ?_, ?_, ?_⟩,
    fun h n hr => ⟨?_, ?_, ?_, ?_, jsonString_of_valid _⟩, ?_⟩
  · simp only [http.Values.Get, h]
  · simp only [foldersize.FolderSize.ServeHTTP, h, if_true]
    rfl
  · simp only [foldersize.FolderSize.ServeHTTP, h, if_true]
    rfl
  · simp only [foldersize.FolderSize.ServeHTTP, h, if_false, hr]
    rfl
  · simp only [foldersize.FolderSize.ServeHTTP, h, if_false, hr]
    rfl
  · simp only [foldersize.FolderSize.ServeHTTP, h, if_false, hr]
    rfl
  · simp only [foldersize.FolderSize.ServeHTTP, h, if_false, hr]
    rfl
  · simp only [foldersize.FolderSize.ServeHTTP, h, if_false, hr]
  · simp only [foldersize.FolderSize.ServeHTTP, h, if_false, hr]
    rfl
  · simp only [foldersize.FolderSize.ServeHTTP, h, if_false, hr]
    rfl
  · simp only [foldersize.FolderSize.ServeHTTP, h, if_false, hr]
    rfl
  · unfold foldersize.FolderSize.ServeHTTP
    simp only
    split_ifs
    · rfl
    · rcases foldersize.getFolderSize fs (r.Query.Get "folder") with ⟨n, _ | e⟩ <;> rfl

/-- C8, witness: a request for an existing empty directory is answered with status
200 and the JSON object with `folder` and `size` 0; a request without the parameter
is answered 400; a request for a path that does not exist is answered 500 with the
message of the error and a newline as body. -/
theorem FolderSize_ServeHTTP_response_witness :
    (foldersize.FolderSize.ServeHTTP (fun _ => .dir 4096 []) [] ⟨[("folder", ["/data"])]⟩
        = (⟨[.HeaderSet "Content-Type" "application/json",
            .Encode [("folder", .str "/data"), ("size", .num 0)]], ["/data"], []⟩, none) ∧
      http.body (foldersize.FolderSize.ServeHTTP (fun _ => .dir 4096 []) []
          ⟨[("folder", ["/data"])]⟩).1.w
        = [.jsonLine [("folder", .str "/data"), ("size", .num 0)]]) ∧
      foldersize.FolderSize.ServeHTTP (fun _ => .dir 4096 []) [] ⟨[]⟩
        = (⟨[.Error "folder parameter is required" 400], [], []⟩, none) ∧
      http.body (foldersize.FolderSize.ServeHTTP
          (fun _ => .lstatFails "no such file or directory") []
          ⟨[("folder", ["/gone"])]⟩).1.w
        = [.raw "no such file or directory\n"] :=
  have h200 := (FolderSize_ServeHTTP_response (fun _ => .dir 4096 []) []
    ⟨[("folder", ["/data"])]⟩).2.2.2.1 (by decide) 0 (by decide)
  ⟨⟨h200.1, h200.2.2.2.1⟩,
    ((FolderSize_ServeHTTP_response (fun _ => .dir 4096 []) [] ⟨[]⟩).2.1 (by decide)).1,
    ((FolderSize_ServeHTTP_response (fun _ => .lstatFails "no such file or directory") []
      ⟨[("folder", ["/gone"])]⟩).2.2.1 (by decide) 0 (.Other "no such file or directory")
      (by decide)).2.2.2⟩

namespace caddyfolderlimit
open Go strconv

theorem HasSuffix_two (s suffix : List Char) (hlen : suffix.length = 2) :
    strings.HasSuffix s suffix = true ↔ s.drop (s.length - 2) = suffix := by
  simp only [strings.HasSuffix, Bool.and_eq_true, decide_eq_true_eq, hlen]
  refine ⟨fun h => h.2, fun h => ⟨?_, h⟩⟩
  have := congrArg List.length h
  rw [List.length_drop, hlen] at this
  omega

theorem switch_snd (s : List Char) : (parseSize.switch s).2 = trimSizeSuffix s := by
  unfold parseSize.switch trimSizeSuffix strings.TrimSuffix
  have hk := HasSuffix_two s "kb".toList rfl
  have hm := HasSuffix_two s "mb".toList rfl
  have hg := HasSuffix_two s "gb".toList rfl
  simp only [List.mem_cons, List.mem_singleton, List.not_mem_nil, or_false, ← hk, ← hm, ← hg]
  have hlen : "kb".toList.length = 2 ∧ "mb".toList.length = 2 ∧ "gb".toList.length = 2 :=
    ⟨rfl, rfl, rfl⟩
  rw [hlen.1, hlen.2.1, hlen.2.2]
  cases strings.HasSuffix s "kb".toList <;> cases strings.HasSuffix s "mb".toList <;>
    cases strings.HasSuffix s "gb".toList <;> simp

theorem suffixMultiplier_cases (base : List Char) (h : base ∈ sizeSuffixes) :
    suffixMultiplier base = 1 ∨ suffixMultiplier base = 1024 ∨
      suffixMultiplier base = 1048576 ∨ suffixMultiplier base = 1073741824 := by
  simp only [sizeSuffixes, List.mem_cons, List.mem_singleton, List.not_mem_nil, or_false] at h
  rcases h with rfl | rfl | rfl | rfl
  · left; rfl
  · right; left; rfl
  · right; right; left; rfl
  · right; right; right; rfl

theorem fits_of_fits_mul (n m : Int)
    (hm : m = 1 ∨ m = 1024 ∨ m = 1048576 ∨ m = 1073741824) (h : fitsInt64 (n * m)) :
    fitsInt64 n := by
  unfold fitsInt64 at *
  rcases hm with rfl | rfl | rfl | rfl <;> omega

end caddyfolderlimit

open caddyfolderlimit strconv

/-- C4: for every optionally signed decimal literal, of value `n`, and every suffix
among none, `kb`, `mb`, `gb` in any mix of upper and lower case, such that `n` times
the multiplier of the suffix (1, 1024, 1024^2, 1024^3) fits in an `int64`,
`parseSize` on the literal followed by the suffix returns no error and exactly `n`
times the multiplier. -/
theorem parseSize_value (unicodeToLower : Char → Char) (hascii : LowersASCII unicodeToLower)
    (lit suffix : List Char) (hlit : isDecimalLiteral lit = true)
    (hsuf : suffix.map Char.toLower ∈ sizeSuffixes)
    (hfit : fitsInt64 (literalValue lit * suffixMultiplier (suffix.map Char.toLower))) :
    parseSize unicodeToLower (lit ++ suffix)
      = (literalValue lit * suffixMultiplier (suffix.map Char.toLower), none) := by
  rw [parseSize_literal_suffix unicodeToLower hascii lit suffix hlit hsuf
    (fits_of_fits_mul _ _ (suffixMultiplier_cases _ hsuf) hfit), int64_of_fits _ hfit]

/-- C4, witness: "100" gives 100, "1kb" 1024, "2mb" 2097152, "1gb" 1073741824 and
"1KB" 1024. -/
theorem parseSize_value_witness :
    parseSize Char.toLower "100".toList = (100, none) ∧
      parseSize Char.toLower "1kb".toList = (1024, none) ∧
      parseSize Char.toLower "2mb".toList = (2097152, none) ∧
      parseSize Char.toLower "1gb".toList = (1073741824, none) ∧
      parseSize Char.toLower "1KB".toList = (1024, none) :=
  ⟨parseSize_value Char.toLower (fun _ _ => rfl) "100".toList [] (by decide) (by decide)
      (by decide),
    parseSize_value Char.toLower (fun _ _ => rfl) "1".toList "kb".toList (by decide)
      (by decide) (by decide),
    parseSize_value Char.toLower (fun _ _ => rfl) "2".toList "mb".toList (by decide)
      (by decide) (by decide),
    parseSize_value Char.toLower (fun _ _ => rfl) "1".toList "gb".toList (by decide)
      (by decide) (by decide),
    parseSize_value Char.toLower (fun _ _ => rfl) "1".toList "KB".toList (by decide)
      (by decide) (by decide)⟩

/-- C7: for every input string `s`, if `s` in lower case with at most one trailing
`kb`, `mb` or `gb` removed is not an optionally signed decimal literal whose value
fits in an `int64`, then `parseSize s` returns an error together with the value 0. -/
theorem parseSize_rejects (unicodeToLower : Char → Char) (s : List Char)
    (hbad : ¬ (isDecimalLiteral (trimSizeSuffix (strings.ToLower unicodeToLower s)) = true ∧
      fitsInt64 (literalValue (trimSizeSuffix (strings.ToLower unicodeToLower s))))) :
    ∃ e, parseSize unicodeToLower s = (0, some e) := by
  rw [← switch_snd] at hbad
  obtain ⟨e, he⟩ := ParseInt_error _ hbad
  unfold parseSize
  rcases hp : ParseInt (parseSize.switch (strings.ToLower unicodeToLower s)).2 with ⟨v, _ | e2⟩
  · rw [hp] at he; simp at he
  · exact ⟨e2, by simp [hp]⟩

/-- C7, witness: "abckb", "kb", the empty string, "1.5mb", "1 kb" and
"99999999999999999999" are rejected. -/
theorem parseSize_rejects_witness :
    (∃ e, parseSize Char.toLower "abckb".toList = (0, some e)) ∧
      (∃ e, parseSize Char.toLower "kb".toList = (0, some e)) ∧
      (∃ e, parseSize Char.toLower [] = (0, some e)) ∧
      (∃ e, parseSize Char.toLower "1.5mb".toList = (0, some e)) ∧
      (∃ e, parseSize Char.toLower "1 kb".toList = (0, some e)) ∧
      (∃ e, parseSize Char.toLower "99999999999999999999".toList = (0, some e)) :=
  ⟨parseSize_rejects Char.toLower "abckb".toList (by decide),
    parseSize_rejects Char.toLower "kb".toList (by decide),
    parseSize_rejects Char.toLower [] (by decide),
    parseSize_rejects Char.toLower "1.5mb".toList (by decide),
    parseSize_rejects Char.toLower "1 kb".toList (by decide),
    parseSize_rejects Char.toLower "99999999999999999999".toList (by decide)⟩

/-- C10: `parseSize` does not detect the overflow of the multiplication by the suffix
multiplier: for every literal whose value `n` fits in an `int64` while `n` times the
multiplier does not, it returns no error and the product reduced modulo `2^64` into
the `int64` range, which differs from the product written. -/
theorem parseSize_wraps (unicodeToLower : Char → Char) (hascii : LowersASCII unicodeToLower)
    (lit suffix : List Char) (hlit : isDecimalLiteral lit = true)
    (hsuf : suffix.map Char.toLower ∈ sizeSuffixes)
    (hfit : fitsInt64 (literalValue lit))
    (hover : ¬ fitsInt64 (literalValue lit * suffixMultiplier (suffix.map Char.toLower))) :
    parseSize unicodeToLower (lit ++ suffix)
        = (int64 (literalValue lit * suffixMultiplier (suffix.map Char.toLower)), none) ∧
      int64 (literalValue lit * suffixMultiplier (suffix.map Char.toLower))
        ≠ literalValue lit * suffixMultiplier (suffix.map Char.toLower) := by
  refine ⟨parseSize_literal_suffix unicodeToLower hascii lit suffix hlit hsuf hfit, ?_⟩
  intro h
  apply hover
  rw [← h]
  exact fits_int64 _

/-- C10, witness: "9007199254740992kb", that is `2^53` times 1024, gives
`-9223372036854775808` and no error. -/
theorem parseSize_wraps_witness :
    parseSize Char.toLower "9007199254740992kb".toList = (-9223372036854775808, none) :=
  (parseSize_wraps Char.toLower (fun _ _ => rfl) "9007199254740992".toList "kb".toList
    (by decide) (by decide) (by decide) (by decide)).1
